import Mathlib

/-!
Shallow embedding of the recipe backend (src/recipe_backend/src/api/main.py).

The program is a single-file in-memory CRUD service.  Its state is a Python
dict `_db : Dict[int, Recipe]` plus an id counter `_id_counter : int`.  We
model the dict as an association list that obeys Python dict semantics
(assignment to an existing key keeps its position, a new key is appended,
iteration is in insertion order), the counter as a `Nat`, and the wall clock
`datetime.utcnow()` as explicit `Nat` arguments: each handler receives one
time value per `_now()` call it can make (two inside `_ensure_seed`, one for
the mutation timestamp).  Pydantic validation of request bodies happens in
the framework before a handler runs; we model it as a boolean check at the
top of each endpoint function, and the re-validation performed by a
`Recipe(**data)` construction inside a handler as `buildRecipe`, which can
fail with a validation error.
-/

/-- Recipe record as stored in `_db` (pydantic model `Recipe`): input fields
plus server-managed `id`, `created_at`, `updated_at`.  Timestamps are
abstracted to `Nat`. -/
structure Recipe where
  id : Nat
  title : String
  description : Option String
  ingredients : List String
  steps : List String
  image_url : Option String
  prep_time_minutes : Option Int
  cook_time_minutes : Option Int
  servings : Option Int
  created_at : Nat
  updated_at : Nat
deriving DecidableEq

/-- Process state: the dict `_db` (insertion-ordered association list) and
the counter `_id_counter`. -/
structure Store where
  db : List (Nat × Recipe)
  id_counter : Nat
deriving DecidableEq

/-- Python `d[k] = v`: overwrite in place if the key exists (keeping its
position in iteration order), otherwise append at the end. -/
def dictSet (k : Nat) (v : Recipe) : List (Nat × Recipe) → List (Nat × Recipe)
  | [] => [(k, v)]
  | (k', v') :: rest =>
      if k' = k then (k, v) :: rest else (k', v') :: dictSet k v rest

/-- Python `d.get(k)`. -/
def dictGet (k : Nat) : List (Nat × Recipe) → Option Recipe
  | [] => none
  | (k', v') :: rest => if k' = k then some v' else dictGet k rest

/-- Python `del d[k]` (keys are unique, so removing the first match is the
dict behaviour). -/
def dictDel (k : Nat) : List (Nat × Recipe) → List (Nat × Recipe)
  | [] => []
  | (k', v') :: rest => if k' = k then rest else (k', v') :: dictDel k rest

/-- Embeds `_next_id`: increment the counter and return it. -/
def next_id (s : Store) : Nat × Store :=
  (s.id_counter + 1, { s with id_counter := s.id_counter + 1 })

/-- Fresh process state: `_db = {}`, `_id_counter = 0`. -/
def initStore : Store := { db := [], id_counter := 0 }

/-- The hard-coded sample recipe built by `_ensure_seed`; `rid` is the value
of the `_next_id()` call and `t1`, `t2` the two `_now()` calls (for
`created_at` and `updated_at` respectively). -/
def sampleRecipe (rid t1 t2 : Nat) : Recipe :=
  { id := rid
    title := "Classic Pancakes"
    description := some "Fluffy pancakes perfect for breakfast."
    ingredients :=
      [ "1 1/2 cups all-purpose flour"
      , "3 1/2 tsp baking powder"
      , "1 tsp salt"
      , "1 tbsp white sugar"
      , "1 1/4 cups milk"
      , "1 egg"
      , "3 tbsp butter, melted" ]
    steps :=
      [ "In a large bowl, sift together the flour, baking powder, salt and sugar."
      , "Make a well in the center and pour in the milk, egg and melted butter; mix until smooth."
      , "Heat a lightly oiled griddle over medium high heat."
      , "Pour or scoop the batter onto the griddle, using approximately 1/4 cup for each pancake."
      , "Brown on both sides and serve hot." ]
    image_url := none
    prep_time_minutes := some 10
    cook_time_minutes := some 15
    servings := some 4
    created_at := t1
    updated_at := t2 }

/-- Embeds `_ensure_seed`: if `_db` is empty, insert the sample recipe under
a fresh id; otherwise do nothing. -/
def ensure_seed (t1 t2 : Nat) (s : Store) : Store :=
  if s.db.isEmpty then
    let (rid, s') := next_id s
    { s' with db := dictSet rid (sampleRecipe rid t1 t2) s'.db }
  else s

/-- Input schema `RecipeCreate` (= `RecipeBase`): all client-settable fields,
with the declared defaults for the omitted ones. -/
structure RecipeCreate where
  title : String
  description : Option String := none
  ingredients : List String := []
  steps : List String := []
  image_url : Option String := none
  prep_time_minutes : Option Int := none
  cook_time_minutes : Option Int := none
  servings : Option Int := none
deriving DecidableEq

/-- Input schema `RecipeUpdate`: every field carries a presence flag (the
outer `Option`, pydantic's set/unset distinction used by
`model_dump(exclude_unset=True)`) around a nullable value (the inner
`Option`, since every `RecipeUpdate` field is `Optional` and may be set to
`null` explicitly). -/
structure RecipeUpdate where
  title : Option (Option String) := none
  description : Option (Option String) := none
  ingredients : Option (Option (List String)) := none
  steps : Option (Option (List String)) := none
  image_url : Option (Option String) := none
  prep_time_minutes : Option (Option Int) := none
  cook_time_minutes : Option (Option Int) := none
  servings : Option (Option Int) := none
deriving DecidableEq

/-- Modelled from the spec: pydantic's `HttpUrl` validator is external
library code, not part of this repository; the spec says an `image_url`, if
present, "must be a syntactically valid absolute URL".  We abstract that as
a check for an absolute http(s) URL.  No claim depends on the exact URL
grammar. -/
def isHttpUrl (s : String) : Bool :=
  s.startsWith "http://" || s.startsWith "https://"

/-- Field constraint on `title`: `min_length=1, max_length=200`. -/
def validTitle (t : String) : Bool :=
  decide (1 ≤ t.length) && decide (t.length ≤ 200)

/-- Field constraint on `description`: `max_length=2000` when present. -/
def validDescription : Option String → Bool
  | none => true
  | some d => decide (d.length ≤ 2000)

/-- Field constraint on `image_url`: valid URL when present. -/
def validUrlOpt : Option String → Bool
  | none => true
  | some u => isHttpUrl u

/-- Field constraint on the two time fields: `ge=0` when present. -/
def validTimeOpt : Option Int → Bool
  | none => true
  | some n => decide (0 ≤ n)

/-- Field constraint on `servings`: `ge=1` when present. -/
def validServingsOpt : Option Int → Bool
  | none => true
  | some n => decide (1 ≤ n)

/-- Schema validation of a `RecipeCreate` body, as pydantic performs it
before the handler is invoked. -/
def validateRecipeCreate (p : RecipeCreate) : Bool :=
  validTitle p.title
    && validDescription p.description
    && validUrlOpt p.image_url
    && validTimeOpt p.prep_time_minutes
    && validTimeOpt p.cook_time_minutes
    && validServingsOpt p.servings

/-- Schema validation of a `RecipeUpdate` body: each constraint applies only
when the field is set to a non-null value (a field set to `null` passes,
because the annotation is `Optional`). -/
def validateRecipeUpdate (p : RecipeUpdate) : Bool :=
  (match p.title with | some (some t) => validTitle t | _ => true)
    && (match p.description with | some (some d) => decide (d.length ≤ 2000) | _ => true)
    && (match p.image_url with | some (some u) => isHttpUrl u | _ => true)
    && (match p.prep_time_minutes with | some (some n) => decide (0 ≤ n) | _ => true)
    && (match p.cook_time_minutes with | some (some n) => decide (0 ≤ n) | _ => true)
    && (match p.servings with | some (some n) => decide (1 ≤ n) | _ => true)

/-- The dict built inside `patch_recipe` (`existing.model_dump()` merged
with the payload): like `Recipe` but required fields may be `None` because a
patch can set them to `null`. -/
structure RecipeData where
  id : Nat
  title : Option String
  description : Option String
  ingredients : Option (List String)
  steps : Option (List String)
  image_url : Option String
  prep_time_minutes : Option Int
  cook_time_minutes : Option Int
  servings : Option Int
  created_at : Nat
  updated_at : Nat
deriving DecidableEq

/-- `recipe.model_dump()`. -/
def Recipe.model_dump (r : Recipe) : RecipeData :=
  { id := r.id
    title := some r.title
    description := r.description
    ingredients := some r.ingredients
    steps := some r.steps
    image_url := r.image_url
    prep_time_minutes := r.prep_time_minutes
    cook_time_minutes := r.cook_time_minutes
    servings := r.servings
    created_at := r.created_at
    updated_at := r.updated_at }

/-- The two error kinds of the service: `HTTPException(404)` and pydantic
validation failure (422 at the boundary, exception inside a handler). -/
inductive ApiError where
  | notFound
  | validation
deriving DecidableEq

/-- A `Recipe(**data)` construction: pydantic re-validates every field; a
`None` in a required field (`title`, `ingredients`, `steps`) or any violated
constraint raises a validation error, otherwise the record is produced. -/
def buildRecipe (d : RecipeData) : Except ApiError Recipe :=
  match d.title, d.ingredients, d.steps with
  | some t, some ing, some st =>
      if validTitle t && validDescription d.description && validUrlOpt d.image_url
          && validTimeOpt d.prep_time_minutes && validTimeOpt d.cook_time_minutes
          && validServingsOpt d.servings then
        .ok { id := d.id, title := t, description := d.description
              , ingredients := ing, steps := st, image_url := d.image_url
              , prep_time_minutes := d.prep_time_minutes
              , cook_time_minutes := d.cook_time_minutes
              , servings := d.servings
              , created_at := d.created_at, updated_at := d.updated_at }
      else .error .validation
  | _, _, _ => .error .validation

/-- The keyword-argument dict of `Recipe(id=…, created_at=…, updated_at=…,
**payload.model_dump())` used by create and replace. -/
def RecipeCreate.toData (p : RecipeCreate) (rid c u : Nat) : RecipeData :=
  { id := rid
    title := some p.title
    description := p.description
    ingredients := some p.ingredients
    steps := some p.steps
    image_url := p.image_url
    prep_time_minutes := p.prep_time_minutes
    cook_time_minutes := p.cook_time_minutes
    servings := p.servings
    created_at := c
    updated_at := u }

/-- The merge loop of `patch_recipe`: `for key, value in
payload.model_dump(exclude_unset=True).items(): data[key] = value` — only
fields whose presence flag is set overwrite the dumped existing values. -/
def applyUpdate (d : RecipeData) (p : RecipeUpdate) : RecipeData :=
  { d with
    title := match p.title with | some v => v | none => d.title
    description := match p.description with | some v => v | none => d.description
    ingredients := match p.ingredients with | some v => v | none => d.ingredients
    steps := match p.steps with | some v => v | none => d.steps
    image_url := match p.image_url with | some v => v | none => d.image_url
    prep_time_minutes :=
      match p.prep_time_minutes with | some v => v | none => d.prep_time_minutes
    cook_time_minutes :=
      match p.cook_time_minutes with | some v => v | none => d.cook_time_minutes
    servings := match p.servings with | some v => v | none => d.servings }

/-- Endpoint `GET /recipes` (`list_recipes`). -/
def list_recipes (t1 t2 : Nat) (s : Store) : List Recipe × Store :=
  let s1 := ensure_seed t1 t2 s
  (s1.db.map Prod.snd, s1)

/-- Endpoint `GET /recipes/{id}` (`get_recipe`). -/
def get_recipe (rid : Nat) (t1 t2 : Nat) (s : Store) :
    Except ApiError Recipe × Store :=
  let s1 := ensure_seed t1 t2 s
  match dictGet rid s1.db with
  | some r => (.ok r, s1)
  | none => (.error .notFound, s1)

/-- Endpoint `POST /recipes` (`create_recipe`), including the framework-side
schema validation of the body, which happens before the handler (and hence
before `_ensure_seed`) runs. -/
def create_recipe (p : RecipeCreate) (t1 t2 t3 : Nat) (s : Store) :
    Except ApiError Recipe × Store :=
  if validateRecipeCreate p then
    let s1 := ensure_seed t1 t2 s
    let (rid, s2) := next_id s1
    match buildRecipe (p.toData rid t3 t3) with
    | .ok r => (.ok r, { s2 with db := dictSet rid r s2.db })
    | .error e => (.error e, s2)
  else (.error .validation, s)

/-- Endpoint `PUT /recipes/{id}` (`update_recipe`). -/
def update_recipe (rid : Nat) (p : RecipeCreate) (t1 t2 t3 : Nat) (s : Store) :
    Except ApiError Recipe × Store :=
  if validateRecipeCreate p then
    let s1 := ensure_seed t1 t2 s
    match dictGet rid s1.db with
    | none => (.error .notFound, s1)
    | some ex =>
        match buildRecipe (p.toData rid ex.created_at t3) with
        | .ok r => (.ok r, { s1 with db := dictSet rid r s1.db })
        | .error e => (.error e, s1)
  else (.error .validation, s)

/-- The `data` dict of `patch_recipe` just before `Recipe(**data)`: the
dumped existing record, merged with the set fields of the payload, with
`updated_at` overwritten by `_now()`. -/
def patchData (ex : Recipe) (p : RecipeUpdate) (t3 : Nat) : RecipeData :=
  { applyUpdate ex.model_dump p with updated_at := t3 }

/-- Endpoint `PATCH /recipes/{id}` (`patch_recipe`). -/
def patch_recipe (rid : Nat) (p : RecipeUpdate) (t1 t2 t3 : Nat) (s : Store) :
    Except ApiError Recipe × Store :=
  if validateRecipeUpdate p then
    let s1 := ensure_seed t1 t2 s
    match dictGet rid s1.db with
    | none => (.error .notFound, s1)
    | some ex =>
        match buildRecipe (patchData ex p t3) with
        | .ok r => (.ok r, { s1 with db := dictSet rid r s1.db })
        | .error e => (.error e, s1)
  else (.error .validation, s)

/-- Endpoint `DELETE /recipes/{id}` (`delete_recipe`); the success body
`{"status": "deleted", "id": rid}` is modelled by returning the id. -/
def delete_recipe (rid : Nat) (t1 t2 : Nat) (s : Store) :
    Except ApiError Nat × Store :=
  let s1 := ensure_seed t1 t2 s
  match dictGet rid s1.db with
  | some _ => (.ok rid, { s1 with db := dictDel rid s1.db })
  | none => (.error .notFound, s1)

/-- One API call for the trace semantics. -/
inductive Op where
  | listOp
  | getOp (rid : Nat)
  | createOp (p : RecipeCreate)
  | replaceOp (rid : Nat) (p : RecipeCreate)
  | patchOp (rid : Nat) (p : RecipeUpdate)
  | deleteOp (rid : Nat)
deriving DecidableEq

/-- An API call together with the clock values its `_now()` calls observe:
`t1`, `t2` inside `_ensure_seed`, `t3` for the mutation timestamp (unused by
list/get/delete). -/
structure Event where
  op : Op
  t1 : Nat
  t2 : Nat
  t3 : Nat
deriving DecidableEq

/-- State transition of one API call (the response is discarded). -/
def stepStore (e : Event) (s : Store) : Store :=
  match e.op with
  | .listOp => (list_recipes e.t1 e.t2 s).2
  | .getOp rid => (get_recipe rid e.t1 e.t2 s).2
  | .createOp p => (create_recipe p e.t1 e.t2 e.t3 s).2
  | .replaceOp rid p => (update_recipe rid p e.t1 e.t2 e.t3 s).2
  | .patchOp rid p => (patch_recipe rid p e.t1 e.t2 e.t3 s).2
  | .deleteOp rid => (delete_recipe rid e.t1 e.t2 s).2

/-- Run a sequence of API calls. -/
def runTrace (tr : List Event) (s : Store) : Store :=
  tr.foldl (fun s e => stepStore e s) s

/-- Monotone clock: within each call the `_now()` values are nondecreasing,
and they never go below the clock at the end of the previous call. -/
def clockOk (lo : Nat) : List Event → Bool
  | [] => true
  | e :: rest =>
      decide (lo ≤ e.t1) && decide (e.t1 ≤ e.t2) && decide (e.t2 ≤ e.t3)
        && clockOk e.t3 rest

/-! ## Lemmas about the dict operations -/

theorem dictGet_mem {k : Nat} {l : List (Nat × Recipe)} {r : Recipe}
    (h : dictGet k l = some r) : (k, r) ∈ l := by
  induction l with
  | nil => simp [dictGet] at h
  | cons hd tl ih =>
      obtain ⟨k', v'⟩ := hd
      by_cases hk : k' = k
      · subst hk
        simp [dictGet] at h
        subst h
        exact List.mem_cons_self _ _
      · simp [dictGet, hk] at h
        exact List.mem_cons_of_mem _ (ih h)

theorem dictGet_none_iff {k : Nat} {l : List (Nat × Recipe)} :
    dictGet k l = none ↔ k ∉ l.map Prod.fst := by
  induction l with
  | nil => simp [dictGet]
  | cons hd tl ih =>
      obtain ⟨k', v'⟩ := hd
      simp only [dictGet, List.map_cons, List.mem_cons]
      by_cases hk : k' = k
      · subst hk
        simp
      · simp only [if_neg hk, ih]
        constructor
        · intro h hh
          rcases hh with hh | hh
          · exact hk hh.symm
          · exact h hh
        · intro h hh
          exact h (Or.inr hh)

theorem mem_dictSet {kr : Nat × Recipe} {k : Nat} {v : Recipe}
    {l : List (Nat × Recipe)} (h : kr ∈ dictSet k v l) :
    kr = (k, v) ∨ kr ∈ l := by
  induction l with
  | nil => simpa [dictSet] using h
  | cons hd tl ih =>
      obtain ⟨k', v'⟩ := hd
      by_cases hk : k' = k
      · subst hk
        simp [dictSet] at h
        rcases h with h | h
        · exact Or.inl h
        · exact Or.inr (List.mem_cons_of_mem _ h)
      · simp [dictSet, hk] at h
        rcases h with h | h
        · exact Or.inr (by simp [h])
        · rcases ih h with h' | h'
          · exact Or.inl h'
          · exact Or.inr (List.mem_cons_of_mem _ h')

theorem map_fst_dictSet_of_mem {k : Nat} {v : Recipe} {l : List (Nat × Recipe)}
    (h : k ∈ l.map Prod.fst) :
    (dictSet k v l).map Prod.fst = l.map Prod.fst := by
  induction l with
  | nil => simp at h
  | cons hd tl ih =>
      obtain ⟨k', v'⟩ := hd
      by_cases hk : k' = k
      · subst hk
        simp [dictSet]
      · simp only [List.map_cons, List.mem_cons] at h
        rcases h with h | h
        · exact absurd h.symm hk
        · simp [dictSet, hk, ih h]

theorem dictSet_of_not_mem {k : Nat} {v : Recipe} {l : List (Nat × Recipe)}
    (h : k ∉ l.map Prod.fst) : dictSet k v l = l ++ [(k, v)] := by
  induction l with
  | nil => simp [dictSet]
  | cons hd tl ih =>
      obtain ⟨k', v'⟩ := hd
      simp only [List.map_cons, List.mem_cons] at h
      push_neg at h
      simp [dictSet, Ne.symm h.1, ih h.2]

theorem dictDel_sublist (k : Nat) (l : List (Nat × Recipe)) :
    (dictDel k l).Sublist l := by
  induction l with
  | nil => simp [dictDel]
  | cons hd tl ih =>
      obtain ⟨k', v'⟩ := hd
      by_cases hk : k' = k
      · simp [dictDel, hk]
      · simp only [dictDel, if_neg hk]
        exact ih.cons₂ _

theorem dictGet_some_not_isEmpty {k : Nat} {l : List (Nat × Recipe)}
    {r : Recipe} (h : dictGet k l = some r) : l.isEmpty = false := by
  cases l with
  | nil => simp [dictGet] at h
  | cons hd tl => rfl

theorem ensure_seed_of_get_some {k t1 t2 : Nat} {s : Store} {r : Recipe}
    (h : dictGet k s.db = some r) : ensure_seed t1 t2 s = s := by
  simp [ensure_seed, dictGet_some_not_isEmpty h]

theorem ensure_seed_of_empty {t1 t2 : Nat} {s : Store} (h : s.db = []) :
    ensure_seed t1 t2 s =
      { db := [(s.id_counter + 1, sampleRecipe (s.id_counter + 1) t1 t2)]
        id_counter := s.id_counter + 1 } := by
  simp [ensure_seed, h, next_id, dictSet, List.isEmpty]

theorem ensure_seed_of_ne_nil {t1 t2 : Nat} {s : Store} (h : s.db ≠ []) :
    ensure_seed t1 t2 s = s := by
  cases hdb : s.db with
  | nil => exact absurd hdb h
  | cons hd tl => simp [ensure_seed, hdb]

/-- Characterisation of a successful `Recipe(**data)` construction: every
field of the record comes straight from the dict. -/
theorem buildRecipe_ok {d : RecipeData} {r : Recipe}
    (h : buildRecipe d = .ok r) :
    d.title = some r.title ∧ d.description = r.description
      ∧ d.ingredients = some r.ingredients ∧ d.steps = some r.steps
      ∧ d.image_url = r.image_url
      ∧ d.prep_time_minutes = r.prep_time_minutes
      ∧ d.cook_time_minutes = r.cook_time_minutes
      ∧ d.servings = r.servings
      ∧ r.id = d.id ∧ r.created_at = d.created_at
      ∧ r.updated_at = d.updated_at := by
  unfold buildRecipe at h
  cases ht : d.title with
  | none => simp [ht] at h
  | some t =>
      cases hi : d.ingredients with
      | none => simp [ht, hi] at h
      | some ing =>
          cases hs : d.steps with
          | none => simp [ht, hi, hs] at h
          | some st =>
              simp only [ht, hi, hs] at h
              by_cases hv : (validTitle t && validDescription d.description
                  && validUrlOpt d.image_url && validTimeOpt d.prep_time_minutes
                  && validTimeOpt d.cook_time_minutes
                  && validServingsOpt d.servings) = true
              · simp [hv] at h
                subst h
                simp
              · simp [hv] at h

/-- Stored-record well-formedness: the constraints every record admitted
into the store satisfies (it was built by a validating construction). -/
def recipeValid (r : Recipe) : Bool :=
  validTitle r.title
    && validDescription r.description
    && validUrlOpt r.image_url
    && validTimeOpt r.prep_time_minutes
    && validTimeOpt r.cook_time_minutes
    && validServingsOpt r.servings

/-- The all-fields-omitted patch payload (`PATCH` with body `{}`). -/
def emptyUpdate : RecipeUpdate := {}

theorem buildRecipe_dump {ex : Recipe} (hv : recipeValid ex = true) (t3 : Nat) :
    buildRecipe { ex.model_dump with updated_at := t3 } =
      .ok { ex with updated_at := t3 } := by
  unfold recipeValid at hv
  simp only [Bool.and_eq_true] at hv
  obtain ⟨⟨⟨⟨⟨h1, h2⟩, h3⟩, h4⟩, h5⟩, h6⟩ := hv
  simp [buildRecipe, Recipe.model_dump, h1, h2, h3, h4, h5, h6]

/-- C7: an invalid create input fails with a validation error and leaves the
whole process state — in particular the set of stored recipes — exactly as
it was: validation happens at the framework boundary, before the handler
(and even its seeding step) can mutate anything. -/
theorem create_invalid_store_unchanged (p : RecipeCreate) (t1 t2 t3 : Nat)
    (s : Store) (hv : validateRecipeCreate p = false) :
    create_recipe p t1 t2 t3 s = (.error .validation, s) := by
  simp [create_recipe, hv]

theorem create_invalid_store_unchanged_witness :
    validateRecipeCreate { title := "Pancakes", servings := some 0 } = false
      ∧ create_recipe { title := "Pancakes", servings := some 0 } 0 0 0 initStore
          = (.error .validation, initStore)
      ∧ validateRecipeCreate { title := "" } = false
      ∧ create_recipe { title := "" } 0 0 0 initStore
          = (.error .validation, initStore) :=
  ⟨by decide,
   create_invalid_store_unchanged _ 0 0 0 initStore (by decide),
   by decide,
   create_invalid_store_unchanged _ 0 0 0 initStore (by decide)⟩

/-- C10: deleting on an empty store first reseeds and only then checks the
requested id, so the call succeeds exactly when the id equals the one the
reseed just assigned (the incremented counter); any other id gets a 404
while the fresh seed record stays in the store. -/
theorem delete_on_empty_store (s : Store) (rid t1 t2 : Nat)
    (hempty : s.db = []) :
    (rid = s.id_counter + 1 →
        delete_recipe rid t1 t2 s =
          (.ok rid, { db := [], id_counter := s.id_counter + 1 }))
      ∧ (rid ≠ s.id_counter + 1 →
        delete_recipe rid t1 t2 s =
          (.error .notFound,
            { db := [(s.id_counter + 1, sampleRecipe (s.id_counter + 1) t1 t2)]
              id_counter := s.id_counter + 1 })) := by
  constructor
  · intro h
    subst h
    simp [delete_recipe, ensure_seed_of_empty hempty, dictGet, dictDel]
  · intro h
    have h' : ¬(s.id_counter + 1 = rid) := fun he => h he.symm
    simp [delete_recipe, ensure_seed_of_empty hempty, dictGet, dictDel, h']

theorem delete_on_empty_store_witness :
    delete_recipe 1 5 6 initStore = (.ok 1, { db := [], id_counter := 1 })
      ∧ delete_recipe 2 5 6 initStore =
          (.error .notFound, { db := [(1, sampleRecipe 1 5 6)], id_counter := 1 }) :=
  ⟨(delete_on_empty_store initStore 1 5 6 rfl).1 rfl,
   (delete_on_empty_store initStore 2 5 6 rfl).2 (by decide)⟩

/-- C2: patching an existing, well-formed record with the empty partial
payload returns and stores the record with every field unchanged except
`updated_at`, which is set to the mutation-time clock value. -/
theorem patch_empty_payload (s : Store) (rid t1 t2 t3 : Nat) (ex : Recipe)
    (hex : dictGet rid s.db = some ex) (hv : recipeValid ex = true) :
    patch_recipe rid emptyUpdate t1 t2 t3 s =
      (.ok { ex with updated_at := t3 },
        { s with db := dictSet rid { ex with updated_at := t3 } s.db }) := by
  have hs1 : ensure_seed t1 t2 s = s := ensure_seed_of_get_some hex
  have hmerge : patchData ex emptyUpdate t3 = { ex.model_dump with updated_at := t3 } := by
    simp [patchData, applyUpdate, emptyUpdate]
  have hvu : validateRecipeUpdate emptyUpdate = true := by decide
  simp [patch_recipe, hvu, hs1, hex, hmerge, buildRecipe_dump hv]

theorem patch_empty_payload_witness :
    patch_recipe 1 emptyUpdate 3 4 9
        { db := [(1, sampleRecipe 1 0 0)], id_counter := 1 } =
      (.ok { sampleRecipe 1 0 0 with updated_at := 9 },
        { db := [(1, { sampleRecipe 1 0 0 with updated_at := 9 })]
          id_counter := 1 }) := by
  have h := patch_empty_payload { db := [(1, sampleRecipe 1 0 0)], id_counter := 1 }
    1 3 4 9 (sampleRecipe 1 0 0) rfl (by decide)
  simpa [dictSet] using h

/-- C1: a successful patch of an existing record overwrites exactly the
fields whose presence flag was set in the payload — including a field
explicitly set to an empty list, or to null where the schema allows null —
keeps every omitted field at its stored value, keeps `id` and `created_at`,
sets `updated_at` to the mutation time, and stores the result back in place.
(A field set to null that the schema forbids, such as `title`, makes the
rebuild fail, so no `.ok` result arises in those cases.) -/
theorem patch_merges_exactly_set_fields
    (s : Store) (rid : Nat) (p : RecipeUpdate) (t1 t2 t3 : Nat) (ex r : Recipe)
    (hex : dictGet rid s.db = some ex)
    (hok : (patch_recipe rid p t1 t2 t3 s).1 = .ok r) :
    r.title = (match p.title with | some (some v) => v | _ => ex.title)
      ∧ r.description = (match p.description with | some v => v | none => ex.description)
      ∧ r.ingredients = (match p.ingredients with | some (some v) => v | _ => ex.ingredients)
      ∧ r.steps = (match p.steps with | some (some v) => v | _ => ex.steps)
      ∧ r.image_url = (match p.image_url with | some v => v | none => ex.image_url)
      ∧ r.prep_time_minutes =
          (match p.prep_time_minutes with | some v => v | none => ex.prep_time_minutes)
      ∧ r.cook_time_minutes =
          (match p.cook_time_minutes with | some v => v | none => ex.cook_time_minutes)
      ∧ r.servings = (match p.servings with | some v => v | none => ex.servings)
      ∧ r.id = ex.id ∧ r.created_at = ex.created_at ∧ r.updated_at = t3
      ∧ (patch_recipe rid p t1 t2 t3 s).2 = { s with db := dictSet rid r s.db } := by
  have hs1 : ensure_seed t1 t2 s = s := ensure_seed_of_get_some hex
  by_cases hval : validateRecipeUpdate p = true
  · simp only [patch_recipe, hval, if_true, hs1, hex] at hok ⊢
    cases hb : buildRecipe (patchData ex p t3) with
    | error e => rw [hb] at hok; simp at hok
    | ok r' =>
        rw [hb] at hok
        simp only [Except.ok.injEq] at hok
        subst hok
        obtain ⟨et, ed, ei, es, eu, ep, ec, ev, eid, ecr, eup⟩ := buildRecipe_ok hb
        simp only [patchData, applyUpdate, Recipe.model_dump] at et ed ei es eu ep ec ev eid ecr eup
        refine ⟨?_, ?_, ?_, ?_, ?_, ?_, ?_, ?_, eid, ecr, eup, rfl⟩
        · cases hpt : p.title with
          | none => rw [hpt] at et; simpa using et.symm
          | some v =>
              cases v with
              | none => rw [hpt] at et; simp at et
              | some t => rw [hpt] at et; simpa using et.symm
        · cases hpd : p.description with
          | none => rw [hpd] at ed; simpa using ed.symm
          | some v => rw [hpd] at ed; simpa using ed.symm
        · cases hpi : p.ingredients with
          | none => rw [hpi] at ei; simpa using ei.symm
          | some v =>
              cases v with
              | none => rw [hpi] at ei; simp at ei
              | some l => rw [hpi] at ei; simpa using ei.symm
        · cases hps : p.steps with
          | none => rw [hps] at es; simpa using es.symm
          | some v =>
              cases v with
              | none => rw [hps] at es; simp at es
              | some l => rw [hps] at es; simpa using es.symm
        · cases hpu : p.image_url with
          | none => rw [hpu] at eu; simpa using eu.symm
          | some v => rw [hpu] at eu; simpa using eu.symm
        · cases hpp : p.prep_time_minutes with
          | none => rw [hpp] at ep; simpa using ep.symm
          | some v => rw [hpp] at ep; simpa using ep.symm
        · cases hpc : p.cook_time_minutes with
          | none => rw [hpc] at ec; simpa using ec.symm
          | some v => rw [hpc] at ec; simpa using ec.symm
        · cases hpv : p.servings with
          | none => rw [hpv] at ev; simpa using ev.symm
          | some v => rw [hpv] at ev; simpa using ev.symm
  · rw [Bool.not_eq_true] at hval
    simp [patch_recipe, hval] at hok

/-- Fixture for the patch witness: a payload that sets `servings` to 2,
`description` explicitly to null and `ingredients` explicitly to the empty
list, omitting everything else. -/
def patchWitnessPayload : RecipeUpdate :=
  { servings := some (some 2), description := some none, ingredients := some (some []) }

/-- Fixture store holding the sample recipe under id 1. -/
def patchWitnessStore : Store := { db := [(1, sampleRecipe 1 0 0)], id_counter := 1 }

/-- The record the witness patch must produce. -/
def patchWitnessResult : Recipe :=
  { sampleRecipe 1 0 0 with
      servings := some 2, description := none, ingredients := [], updated_at := 9 }

theorem patch_merges_exactly_set_fields_witness :
    patchWitnessResult.title = "Classic Pancakes"
      ∧ patchWitnessResult.servings = some 2
      ∧ patchWitnessResult.description = none
      ∧ patchWitnessResult.ingredients = []
      ∧ patchWitnessResult.steps = (sampleRecipe 1 0 0).steps
      ∧ patchWitnessResult.created_at = 0
      ∧ patchWitnessResult.updated_at = 9
      ∧ (patch_recipe 1 patchWitnessPayload 3 4 9 patchWitnessStore).2
          = { patchWitnessStore with
                db := dictSet 1 patchWitnessResult patchWitnessStore.db } := by
  obtain ⟨h1, h2, h3, h4, h5, h6, h7, h8, h9, h10, h11, h12⟩ :=
    patch_merges_exactly_set_fields patchWitnessStore 1 patchWitnessPayload 3 4 9
      (sampleRecipe 1 0 0) patchWitnessResult (by rfl) (by rfl)
  exact ⟨h1, h8, h2, h3, h4, h10, h11, h12⟩

/-- The record `Recipe(id=rid, created_at=c, updated_at=u,
**payload.model_dump())` built by create and replace from a valid payload. -/
def recipeFromCreate (p : RecipeCreate) (rid c u : Nat) : Recipe :=
  { id := rid
    title := p.title
    description := p.description
    ingredients := p.ingredients
    steps := p.steps
    image_url := p.image_url
    prep_time_minutes := p.prep_time_minutes
    cook_time_minutes := p.cook_time_minutes
    servings := p.servings
    created_at := c
    updated_at := u }

theorem buildRecipe_toData {p : RecipeCreate} (rid c u : Nat)
    (hv : validateRecipeCreate p = true) :
    buildRecipe (p.toData rid c u) = .ok (recipeFromCreate p rid c u) := by
  unfold validateRecipeCreate at hv
  simp only [Bool.and_eq_true] at hv
  obtain ⟨⟨⟨⟨⟨h1, h2⟩, h3⟩, h4⟩, h5⟩, h6⟩ := hv
  simp [buildRecipe, RecipeCreate.toData, recipeFromCreate, h1, h2, h3, h4, h5, h6]

/-- C5: replacing an existing id with a valid full payload overwrites every
input field with the payload's values while keeping the record's id and
`created_at`, stamps `updated_at` with the mutation time, and stores the
record in place; an id that is absent (after the seeding step every handler
performs first) yields a 404 and leaves the state untouched. -/
theorem replace_overwrites_preserving_id_created
    (s : Store) (rid : Nat) (p : RecipeCreate) (t1 t2 t3 : Nat)
    (hv : validateRecipeCreate p = true) :
    (∀ ex, dictGet rid s.db = some ex →
        update_recipe rid p t1 t2 t3 s =
          (.ok (recipeFromCreate p rid ex.created_at t3),
            { s with db := dictSet rid (recipeFromCreate p rid ex.created_at t3) s.db }))
      ∧ (dictGet rid (ensure_seed t1 t2 s).db = none →
        update_recipe rid p t1 t2 t3 s = (.error .notFound, ensure_seed t1 t2 s)) := by
  constructor
  · intro ex hex
    have hs1 : ensure_seed t1 t2 s = s := ensure_seed_of_get_some hex
    simp [update_recipe, hv, hs1, hex, buildRecipe_toData rid ex.created_at t3 hv]
  · intro hnone
    simp [update_recipe, hv, hnone]

theorem replace_overwrites_preserving_id_created_witness :
    update_recipe 1 { title := "Pasta", servings := some 2 } 3 4 9 patchWitnessStore =
      (.ok (recipeFromCreate { title := "Pasta", servings := some 2 } 1 0 9),
        { patchWitnessStore with
            db := dictSet 1 (recipeFromCreate { title := "Pasta", servings := some 2 } 1 0 9)
                    patchWitnessStore.db })
      ∧ update_recipe 7 { title := "Pasta", servings := some 2 } 3 4 9 patchWitnessStore =
          (.error .notFound, ensure_seed 3 4 patchWitnessStore) :=
  ⟨(replace_overwrites_preserving_id_created patchWitnessStore 1
      { title := "Pasta", servings := some 2 } 3 4 9 (by decide)).1
      (sampleRecipe 1 0 0) (by rfl),
   (replace_overwrites_preserving_id_created patchWitnessStore 7
      { title := "Pasta", servings := some 2 } 3 4 9 (by decide)).2 (by decide)⟩

theorem buildRecipe_error {d : RecipeData} {e : ApiError}
    (h : buildRecipe d = .error e) : e = .validation := by
  unfold buildRecipe at h
  split at h <;> try split at h
  all_goals simp at h
  all_goals exact h.symm

theorem update_recipe_keys {s : Store} {rid : Nat} {p : RecipeCreate}
    {t1 t2 t3 : Nat} {ex : Recipe} (hex : dictGet rid s.db = some ex) :
    (update_recipe rid p t1 t2 t3 s).2.db.map Prod.fst = s.db.map Prod.fst := by
  have hs1 : ensure_seed t1 t2 s = s := ensure_seed_of_get_some hex
  have hkmem : rid ∈ s.db.map Prod.fst :=
    List.mem_map_of_mem Prod.fst (dictGet_mem hex)
  by_cases hv : validateRecipeCreate p = true
  · simp only [update_recipe, hv, if_true, hs1, hex]
    cases hb : buildRecipe (p.toData rid ex.created_at t3) with
    | ok r => simp [map_fst_dictSet_of_mem hkmem]
    | error e => simp
  · rw [Bool.not_eq_true] at hv
    simp [update_recipe, hv]

theorem patch_recipe_keys {s : Store} {rid : Nat} {p : RecipeUpdate}
    {t1 t2 t3 : Nat} {ex : Recipe} (hex : dictGet rid s.db = some ex) :
    (patch_recipe rid p t1 t2 t3 s).2.db.map Prod.fst = s.db.map Prod.fst := by
  have hs1 : ensure_seed t1 t2 s = s := ensure_seed_of_get_some hex
  have hkmem : rid ∈ s.db.map Prod.fst :=
    List.mem_map_of_mem Prod.fst (dictGet_mem hex)
  by_cases hv : validateRecipeUpdate p = true
  · simp only [patch_recipe, hv, if_true, hs1, hex]
    cases hb : buildRecipe (patchData ex p t3) with
    | ok r => simp [map_fst_dictSet_of_mem hkmem]
    | error e => simp
  · rw [Bool.not_eq_true] at hv
    simp [patch_recipe, hv]

/-- C9: listing returns exactly the stored records in the insertion order of
the underlying dict, and replacing or patching an existing id never changes
that record's position: the key sequence of the dict is unchanged (an
in-place dict assignment keeps the key where it was). -/
theorem list_follows_insertion_order
    (s : Store) (rid : Nat) (pc : RecipeCreate) (pu : RecipeUpdate)
    (t1 t2 t3 : Nat) :
    (list_recipes t1 t2 s).1 = (ensure_seed t1 t2 s).db.map Prod.snd
      ∧ (∀ ex, dictGet rid s.db = some ex →
          (update_recipe rid pc t1 t2 t3 s).2.db.map Prod.fst = s.db.map Prod.fst
            ∧ (patch_recipe rid pu t1 t2 t3 s).2.db.map Prod.fst = s.db.map Prod.fst) := by
  refine ⟨rfl, fun ex hex => ⟨update_recipe_keys hex, patch_recipe_keys hex⟩⟩

theorem list_follows_insertion_order_witness :
    (list_recipes 1 2 initStore).1 = (ensure_seed 1 2 initStore).db.map Prod.snd
      ∧ (update_recipe 1 { title := "Pasta" } 3 4 9 patchWitnessStore).2.db.map Prod.fst
          = patchWitnessStore.db.map Prod.fst :=
  ⟨(list_follows_insertion_order initStore 1 { title := "Pasta" } emptyUpdate 1 2 9).1,
   ((list_follows_insertion_order patchWitnessStore 1 { title := "Pasta" } emptyUpdate 3 4 9).2
      (sampleRecipe 1 0 0) (by rfl)).1⟩

/-- C3: every handler is total over its documented inputs: list always
returns the stored records; get, create, replace, patch and delete return
the documented success value or raise one of the two documented errors, and
nothing else.  For patch in particular, a schema-accepted payload applied to
an existing id produces either the merged record (a successful
`Recipe(**data)` rebuild of the merged dict) or a validation error — the
in-handler rebuild failure is a pydantic `ValidationError` too. -/
theorem handlers_total
    (s : Store) (rid : Nat) (pc : RecipeCreate) (pu : RecipeUpdate)
    (t1 t2 t3 : Nat) :
    (list_recipes t1 t2 s).1 = (ensure_seed t1 t2 s).db.map Prod.snd
      ∧ ((get_recipe rid t1 t2 s).1 = .error .notFound
          ∨ ∃ r, (get_recipe rid t1 t2 s).1 = .ok r)
      ∧ ((create_recipe pc t1 t2 t3 s).1 = .error .validation
          ∨ (create_recipe pc t1 t2 t3 s).1 = .ok (recipeFromCreate pc
              ((ensure_seed t1 t2 s).id_counter + 1) t3 t3))
      ∧ ((update_recipe rid pc t1 t2 t3 s).1 = .error .validation
          ∨ (update_recipe rid pc t1 t2 t3 s).1 = .error .notFound
          ∨ ∃ r, (update_recipe rid pc t1 t2 t3 s).1 = .ok r)
      ∧ ((patch_recipe rid pu t1 t2 t3 s).1 = .error .validation
          ∨ (patch_recipe rid pu t1 t2 t3 s).1 = .error .notFound
          ∨ ∃ ex r, dictGet rid (ensure_seed t1 t2 s).db = some ex
              ∧ (patch_recipe rid pu t1 t2 t3 s).1 = .ok r
              ∧ buildRecipe (patchData ex pu t3) = .ok r)
      ∧ ((delete_recipe rid t1 t2 s).1 = .error .notFound
          ∨ (delete_recipe rid t1 t2 s).1 = .ok rid) := by
  refine ⟨rfl, ?_, ?_, ?_, ?_, ?_⟩
  · cases hget : dictGet rid (ensure_seed t1 t2 s).db with
    | none => left; simp [get_recipe, hget]
    | some r => right; exact ⟨r, by simp [get_recipe, hget]⟩
  · by_cases hv : validateRecipeCreate pc = true
    · right
      simp [create_recipe, hv, next_id, buildRecipe_toData _ t3 t3 hv]
    · left
      rw [Bool.not_eq_true] at hv
      simp [create_recipe, hv]
  · by_cases hv : validateRecipeCreate pc = true
    · cases hget : dictGet rid (ensure_seed t1 t2 s).db with
      | none => right; left; simp [update_recipe, hv, hget]
      | some ex =>
          right; right
          exact ⟨recipeFromCreate pc rid ex.created_at t3,
            by simp [update_recipe, hv, hget, buildRecipe_toData rid ex.created_at t3 hv]⟩
    · left
      rw [Bool.not_eq_true] at hv
      simp [update_recipe, hv]
  · by_cases hv : validateRecipeUpdate pu = true
    · cases hget : dictGet rid (ensure_seed t1 t2 s).db with
      | none => right; left; simp [patch_recipe, hv, hget]
      | some ex =>
          cases hb : buildRecipe (patchData ex pu t3) with
          | error e =>
              left
              have he := buildRecipe_error hb
              subst he
              simp [patch_recipe, hv, hget, hb]
          | ok r =>
              right; right
              exact ⟨ex, r, rfl, by simp [patch_recipe, hv, hget, hb], hb⟩
    · left
      rw [Bool.not_eq_true] at hv
      simp [patch_recipe, hv]
  · cases hget : dictGet rid (ensure_seed t1 t2 s).db with
    | none => left; simp [delete_recipe, hget]
    | some r => right; simp [delete_recipe, hget]

theorem dictGet_dictSet_self (k : Nat) (v : Recipe) (l : List (Nat × Recipe)) :
    dictGet k (dictSet k v l) = some v := by
  induction l with
  | nil => simp [dictSet, dictGet]
  | cons hd tl ih =>
      obtain ⟨k', v'⟩ := hd
      by_cases hk : k' = k
      · simp [dictSet, dictGet, hk]
      · simp [dictSet, dictGet, hk, ih]

theorem dictGet_dictSet_ne {k' k : Nat} (v : Recipe) (l : List (Nat × Recipe))
    (h : k' ≠ k) : dictGet k' (dictSet k v l) = dictGet k' l := by
  induction l with
  | nil => simp [dictSet, dictGet, Ne.symm h]
  | cons hd tl ih =>
      obtain ⟨k0, v0⟩ := hd
      by_cases hk : k0 = k
      · subst hk
        simp [dictSet, dictGet, Ne.symm h]
      · simp [dictSet, dictGet, hk, ih]

theorem dictGet_dictDel_ne {k' k : Nat} (l : List (Nat × Recipe))
    (h : k' ≠ k) : dictGet k' (dictDel k l) = dictGet k' l := by
  induction l with
  | nil => simp [dictDel]
  | cons hd tl ih =>
      obtain ⟨k0, v0⟩ := hd
      by_cases hk : k0 = k
      · subst hk
        simp [dictDel, dictGet, Ne.symm h]
      · simp [dictDel, dictGet, hk, ih]

theorem dictGet_dictDel_self {k : Nat} {l : List (Nat × Recipe)}
    (h : (l.map Prod.fst).Nodup) : dictGet k (dictDel k l) = none := by
  induction l with
  | nil => simp [dictDel, dictGet]
  | cons hd tl ih =>
      obtain ⟨k0, v0⟩ := hd
      simp only [List.map_cons, List.nodup_cons] at h
      by_cases hk : k0 = k
      · subst hk
        simp only [dictDel, if_pos rfl]
        rw [dictGet_none_iff]
        exact h.1
      · simp only [dictDel, if_neg hk, dictGet, if_neg hk]
        exact ih h.2

theorem mem_keys_dictSet {k k0 : Nat} {v : Recipe} {l : List (Nat × Recipe)}
    (h : k ∈ (dictSet k0 v l).map Prod.fst) :
    k = k0 ∨ k ∈ l.map Prod.fst := by
  rw [List.mem_map] at h
  obtain ⟨kr, hm, hf⟩ := h
  rcases mem_dictSet hm with h' | h'
  · left; rw [h'] at hf; exact hf.symm ▸ rfl
  · right; exact hf ▸ List.mem_map_of_mem Prod.fst h'

theorem mem_keys_dictDel {k k0 : Nat} {l : List (Nat × Recipe)}
    (h : k ∈ (dictDel k0 l).map Prod.fst) : k ∈ l.map Prod.fst :=
  ((dictDel_sublist k0 l).map Prod.fst).mem h

theorem ensure_seed_counter_ge (t1 t2 : Nat) (s : Store) :
    s.id_counter ≤ (ensure_seed t1 t2 s).id_counter := by
  by_cases hdb : s.db = []
  · rw [ensure_seed_of_empty hdb]
    exact Nat.le_succ _
  · rw [ensure_seed_of_ne_nil hdb]

theorem mem_keys_ensure_seed {k t1 t2 : Nat} {s : Store}
    (h : k ∈ (ensure_seed t1 t2 s).db.map Prod.fst) :
    k ∈ s.db.map Prod.fst ∨ k = s.id_counter + 1 := by
  by_cases hdb : s.db = []
  · rw [ensure_seed_of_empty hdb] at h
    simp at h
    exact Or.inr h
  · rw [ensure_seed_of_ne_nil hdb] at h
    exact Or.inl h

theorem patchData_created_at (ex : Recipe) (p : RecipeUpdate) (t3 : Nat) :
    (patchData ex p t3).created_at = ex.created_at
      ∧ (patchData ex p t3).updated_at = t3 := by
  simp [patchData, applyUpdate, Recipe.model_dump]

/-- Case analysis of the state change of one API call: it leaves the state
alone (framework-side validation failure), only seeds, seeds then inserts a
fresh record with both timestamps at `t3` under the incremented counter
(create), seeds then overwrites an existing key with a record keeping that
record's `created_at` and stamped `updated_at = t3` (replace/patch), or
seeds then deletes a key. -/
theorem stepStore_cases (e : Event) (s : Store) :
    stepStore e s = s
      ∨ stepStore e s = ensure_seed e.t1 e.t2 s
      ∨ (∃ r, r.created_at = e.t3 ∧ r.updated_at = e.t3
          ∧ stepStore e s =
            { db := dictSet ((ensure_seed e.t1 e.t2 s).id_counter + 1) r
                      (ensure_seed e.t1 e.t2 s).db
              id_counter := (ensure_seed e.t1 e.t2 s).id_counter + 1 })
      ∨ (∃ rid r ex, dictGet rid (ensure_seed e.t1 e.t2 s).db = some ex
          ∧ r.created_at = ex.created_at ∧ r.updated_at = e.t3
          ∧ stepStore e s =
            { db := dictSet rid r (ensure_seed e.t1 e.t2 s).db
              id_counter := (ensure_seed e.t1 e.t2 s).id_counter })
      ∨ (∃ rid, stepStore e s =
            { db := dictDel rid (ensure_seed e.t1 e.t2 s).db
              id_counter := (ensure_seed e.t1 e.t2 s).id_counter }) := by
  obtain ⟨op, t1, t2, t3⟩ := e
  cases op with
  | listOp => right; left; rfl
  | getOp rid =>
      right; left
      cases hget : dictGet rid (ensure_seed t1 t2 s).db <;>
        simp [stepStore, get_recipe, hget]
  | createOp p =>
      by_cases hv : validateRecipeCreate p = true
      · right; right; left
        refine ⟨recipeFromCreate p ((ensure_seed t1 t2 s).id_counter + 1) t3 t3,
          rfl, rfl, ?_⟩
        simp [stepStore, create_recipe, hv, next_id, buildRecipe_toData _ t3 t3 hv]
      · left
        rw [Bool.not_eq_true] at hv
        simp [stepStore, create_recipe, hv]
  | replaceOp rid p =>
      by_cases hv : validateRecipeCreate p = true
      · cases hget : dictGet rid (ensure_seed t1 t2 s).db with
        | none =>
            right; left
            simp [stepStore, update_recipe, hv, hget]
        | some ex =>
            right; right; right; left
            refine ⟨rid, recipeFromCreate p rid ex.created_at t3, ex, hget, rfl, rfl, ?_⟩
            simp [stepStore, update_recipe, hv, hget,
              buildRecipe_toData rid ex.created_at t3 hv]
      · left
        rw [Bool.not_eq_true] at hv
        simp [stepStore, update_recipe, hv]
  | patchOp rid p =>
      by_cases hv : validateRecipeUpdate p = true
      · cases hget : dictGet rid (ensure_seed t1 t2 s).db with
        | none =>
            right; left
            simp [stepStore, patch_recipe, hv, hget]
        | some ex =>
            cases hb : buildRecipe (patchData ex p t3) with
            | error er =>
                right; left
                simp [stepStore, patch_recipe, hv, hget, hb]
            | ok r =>
                right; right; right; left
                obtain ⟨_, _, _, _, _, _, _, _, _, hcr, hup⟩ := buildRecipe_ok hb
                refine ⟨rid, r, ex, hget, ?_, ?_, ?_⟩
                · rw [hcr]; exact (patchData_created_at ex p t3).1
                · rw [hup]; exact (patchData_created_at ex p t3).2
                · simp [stepStore, patch_recipe, hv, hget, hb]
      · left
        rw [Bool.not_eq_true] at hv
        simp [stepStore, patch_recipe, hv]
  | deleteOp rid =>
      cases hget : dictGet rid (ensure_seed t1 t2 s).db with
      | none =>
          right; left
          simp [stepStore, delete_recipe, hget]
      | some r =>
          right; right; right; right
          exact ⟨rid, by simp [stepStore, delete_recipe, hget]⟩

/-- Structural well-formedness of the store: every key is positive and at
most the counter, and keys are unique. -/
def WFS (s : Store) : Prop :=
  (∀ kr ∈ s.db, 1 ≤ kr.1 ∧ kr.1 ≤ s.id_counter)
    ∧ (s.db.map Prod.fst).Nodup

theorem wfs_init : WFS initStore := by
  constructor
  · intro kr hm
    simp [initStore] at hm
  · simp [initStore]

theorem wfs_ensure_seed (t1 t2 : Nat) {s : Store} (h : WFS s) :
    WFS (ensure_seed t1 t2 s) := by
  by_cases hdb : s.db = []
  · rw [ensure_seed_of_empty hdb]
    constructor
    · intro kr hm
      simp at hm
      subst hm
      refine ⟨?_, ?_⟩ <;> simp
    · simp
  · rwa [ensure_seed_of_ne_nil hdb]

theorem counter_step_ge (e : Event) (s : Store) :
    s.id_counter ≤ (stepStore e s).id_counter := by
  have hse := ensure_seed_counter_ge e.t1 e.t2 s
  rcases stepStore_cases e s with h | h | ⟨r, _, _, h⟩ | ⟨rid, r, ex, _, _, _, h⟩ | ⟨rid, h⟩ <;>
    rw [h]
  · exact hse
  · exact hse.trans (Nat.le_succ _)
  · exact hse
  · exact hse

theorem wfs_step (e : Event) {s : Store} (h : WFS s) : WFS (stepStore e s) := by
  have hseed := wfs_ensure_seed e.t1 e.t2 h
  rcases stepStore_cases e s with hc | hc | ⟨r, _, _, hc⟩ | ⟨rid, r, ex, hget, _, _, hc⟩ | ⟨rid, hc⟩ <;>
    rw [hc]
  · exact h
  · exact hseed
  · have hfresh : (ensure_seed e.t1 e.t2 s).id_counter + 1
        ∉ (ensure_seed e.t1 e.t2 s).db.map Prod.fst := by
      intro hm
      rw [List.mem_map] at hm
      obtain ⟨kr, hkr, hf⟩ := hm
      have := (hseed.1 kr hkr).2
      omega
    constructor
    · intro kr hm
      rcases mem_dictSet hm with h' | h'
      · subst h'
        exact ⟨Nat.le_add_left 1 _, Nat.le_refl _⟩
      · have h2 := hseed.1 kr h'
        exact ⟨h2.1, h2.2.trans (Nat.le_succ _)⟩
    · rw [dictSet_of_not_mem hfresh]
      simp only [List.map_append, List.map_cons, List.map_nil]
      rw [List.nodup_append]
      refine ⟨hseed.2, List.nodup_singleton _, ?_⟩
      intro a ha hb
      simp at hb
      subst hb
      exact hfresh ha
  · have hmem : rid ∈ (ensure_seed e.t1 e.t2 s).db.map Prod.fst :=
      List.mem_map_of_mem Prod.fst (dictGet_mem hget)
    constructor
    · intro kr hm
      rcases mem_dictSet hm with h' | h'
      · subst h'
        have := hseed.1 (rid, ex) (dictGet_mem hget)
        simpa using this
      · exact hseed.1 kr h'
    · rw [map_fst_dictSet_of_mem hmem]
      exact hseed.2
  · constructor
    · intro kr hm
      exact hseed.1 kr ((dictDel_sublist rid _).mem hm)
    · exact ((dictDel_sublist rid _).map Prod.fst).nodup hseed.2

theorem wfs_run (tr : List Event) {s : Store} (h : WFS s) : WFS (runTrace tr s) := by
  induction tr generalizing s with
  | nil => exact h
  | cons e rest ih => exact ih (wfs_step e h)

theorem counter_run_ge (tr : List Event) (s : Store) :
    s.id_counter ≤ (runTrace tr s).id_counter := by
  induction tr generalizing s with
  | nil => exact Nat.le_refl _
  | cons e rest ih => exact (counter_step_ge e s).trans (ih (stepStore e s))

theorem runTrace_append (tr1 tr2 : List Event) (s : Store) :
    runTrace (tr1 ++ tr2) s = runTrace tr2 (runTrace tr1 s) :=
  List.foldl_append _ _ _ _

theorem mem_keys_step {e : Event} {s : Store} {k : Nat}
    (hmem : k ∈ (stepStore e s).db.map Prod.fst) :
    k ∈ s.db.map Prod.fst ∨ s.id_counter < k := by
  have hse := ensure_seed_counter_ge e.t1 e.t2 s
  rcases stepStore_cases e s with hc | hc | ⟨r, _, _, hc⟩ | ⟨rid, r, ex, hget, _, _, hc⟩ | ⟨rid, hc⟩ <;>
    rw [hc] at hmem
  · exact Or.inl hmem
  · rcases mem_keys_ensure_seed hmem with h' | h'
    · exact Or.inl h'
    · right; omega
  · simp only at hmem
    rcases mem_keys_dictSet hmem with h' | h'
    · right; omega
    · rcases mem_keys_ensure_seed h' with h'' | h''
      · exact Or.inl h''
      · right; omega
  · simp only at hmem
    rcases mem_keys_dictSet hmem with h' | h'
    · subst h'
      rcases mem_keys_ensure_seed
          (List.mem_map_of_mem Prod.fst (dictGet_mem hget)) with h'' | h''
      · exact Or.inl h''
      · right; omega
    · rcases mem_keys_ensure_seed h' with h'' | h''
      · exact Or.inl h''
      · right; omega
  · simp only at hmem
    rcases mem_keys_ensure_seed (mem_keys_dictDel hmem) with h' | h'
    · exact Or.inl h'
    · right; omega

theorem dead_key_step {e : Event} {s : Store} {k : Nat}
    (hk : k ≤ s.id_counter) (hdead : k ∉ s.db.map Prod.fst) :
    k ∉ (stepStore e s).db.map Prod.fst := by
  intro hmem
  rcases mem_keys_step hmem with h | h
  · exact hdead h
  · omega

theorem dead_key_run (tr : List Event) {s : Store} {k : Nat}
    (hk : k ≤ s.id_counter) (hdead : k ∉ s.db.map Prod.fst) :
    k ∉ (runTrace tr s).db.map Prod.fst := by
  induction tr generalizing s with
  | nil => exact hdead
  | cons e rest ih =>
      exact ih (hk.trans (counter_step_ge e s)) (dead_key_step hk hdead)

theorem created_preserved_step {e : Event} {s : Store} {k : Nat} {r r' : Recipe}
    (hwf : WFS s) (hget : dictGet k s.db = some r)
    (hget' : dictGet k (stepStore e s).db = some r') :
    r'.created_at = r.created_at := by
  have hs1 : ensure_seed e.t1 e.t2 s = s := ensure_seed_of_get_some hget
  have hk2 : k ≤ s.id_counter := (hwf.1 (k, r) (dictGet_mem hget)).2
  rcases stepStore_cases e s with hc | hc | ⟨r0, hcr, hup, hc⟩
    | ⟨rid, r0, ex, hg, hcr, hup, hc⟩ | ⟨rid, hc⟩ <;>
    rw [hc] at hget'
  · rw [Option.some.inj (hget.symm.trans hget')]
  · rw [hs1] at hget'
    rw [Option.some.inj (hget.symm.trans hget')]
  · simp only [hs1] at hget'
    have hne : k ≠ s.id_counter + 1 := by omega
    have hget2 : dictGet k (dictSet (s.id_counter + 1) r0 s.db) = some r' := hget'
    rw [dictGet_dictSet_ne r0 s.db hne] at hget2
    rw [Option.some.inj (hget.symm.trans hget2)]
  · simp only [hs1] at hget' hg
    by_cases hkr : k = rid
    · subst hkr
      have hget2 : dictGet k (dictSet k r0 s.db) = some r' := hget'
      rw [dictGet_dictSet_self] at hget2
      have her : ex = r := Option.some.inj (hg.symm.trans hget)
      rw [← Option.some.inj hget2, hcr, her]
    · have hget2 : dictGet k (dictSet rid r0 s.db) = some r' := hget'
      rw [dictGet_dictSet_ne r0 s.db hkr] at hget2
      rw [Option.some.inj (hget.symm.trans hget2)]
  · simp only [hs1] at hget'
    by_cases hkr : k = rid
    · subst hkr
      have hget2 : dictGet k (dictDel k s.db) = some r' := hget'
      rw [dictGet_dictDel_self hwf.2] at hget2
      exact absurd hget2 (by simp)
    · have hget2 : dictGet k (dictDel rid s.db) = some r' := hget'
      rw [dictGet_dictDel_ne s.db hkr] at hget2
      rw [Option.some.inj (hget.symm.trans hget2)]

theorem created_preserved_run {tr : List Event} {s : Store} {k : Nat}
    {r r' : Recipe} (hwf : WFS s) (hget : dictGet k s.db = some r)
    (hget' : dictGet k (runTrace tr s).db = some r') :
    r'.created_at = r.created_at := by
  induction tr generalizing s r with
  | nil =>
      have hget2 : dictGet k s.db = some r' := hget'
      rw [Option.some.inj (hget.symm.trans hget2)]
  | cons e rest ih =>
      have hget2 : dictGet k (runTrace rest (stepStore e s)).db = some r' := hget'
      cases hmid : dictGet k (stepStore e s).db with
      | none =>
          exfalso
          have hk : k ≤ s.id_counter := (hwf.1 (k, r) (dictGet_mem hget)).2
          have hdead : k ∉ (stepStore e s).db.map Prod.fst := dictGet_none_iff.mp hmid
          have hgone : k ∉ (runTrace rest (stepStore e s)).db.map Prod.fst :=
            dead_key_run rest (hk.trans (counter_step_ge e s)) hdead
          exact hgone (List.mem_map_of_mem Prod.fst (dictGet_mem hget2))
      | some rm =>
          have h1 : rm.created_at = r.created_at := created_preserved_step hwf hget hmid
          have h2 : r'.created_at = rm.created_at := ih (wfs_step e hwf) hmid hget2
          rw [h2, h1]

/-- Timestamp invariant relative to a clock bound `lo`: every stored record
has `created_at ≤ updated_at` and its `updated_at` does not exceed `lo`. -/
def StampsLe (lo : Nat) (s : Store) : Prop :=
  ∀ kr ∈ s.db, kr.2.created_at ≤ kr.2.updated_at ∧ kr.2.updated_at ≤ lo

theorem stamps_mono {lo lo' : Nat} {s : Store} (h : StampsLe lo s)
    (hle : lo ≤ lo') : StampsLe lo' s :=
  fun kr hm => ⟨(h kr hm).1, (h kr hm).2.trans hle⟩

theorem stamps_init (lo : Nat) : StampsLe lo initStore := by
  intro kr hm
  simp [initStore] at hm

theorem stamps_ensure_seed {lo t1 t2 : Nat} {s : Store} (h : StampsLe lo s)
    (h1 : lo ≤ t1) (h2 : t1 ≤ t2) : StampsLe t2 (ensure_seed t1 t2 s) := by
  by_cases hdb : s.db = []
  · rw [ensure_seed_of_empty hdb]
    intro kr hm
    simp at hm
    subst hm
    exact ⟨h2, Nat.le_refl _⟩
  · rw [ensure_seed_of_ne_nil hdb]
    exact stamps_mono h (h1.trans h2)

theorem stamps_step {e : Event} {s : Store} {lo : Nat} (h : StampsLe lo s)
    (h1 : lo ≤ e.t1) (h2 : e.t1 ≤ e.t2) (h3 : e.t2 ≤ e.t3) :
    StampsLe e.t3 (stepStore e s) := by
  have hseed : StampsLe e.t2 (ensure_seed e.t1 e.t2 s) := stamps_ensure_seed h h1 h2
  rcases stepStore_cases e s with hc | hc | ⟨r0, hcr, hup, hc⟩
    | ⟨rid, r0, ex, hg, hcr, hup, hc⟩ | ⟨rid, hc⟩ <;> rw [hc]
  · exact stamps_mono h (h1.trans (h2.trans h3))
  · exact stamps_mono hseed h3
  · intro kr hm
    rcases mem_dictSet hm with h' | h'
    · subst h'
      exact ⟨by simp [hcr, hup], by simp [hup]⟩
    · exact (stamps_mono hseed h3) kr h'
  · intro kr hm
    rcases mem_dictSet hm with h' | h'
    · subst h'
      have hex := hseed (rid, ex) (dictGet_mem hg)
      simp only
      constructor
      · rw [hcr, hup]
        exact (hex.1.trans hex.2).trans h3
      · rw [hup]
    · exact (stamps_mono hseed h3) kr h'
  · intro kr hm
    exact (stamps_mono hseed h3) kr ((dictDel_sublist rid _).mem hm)

theorem stamps_run {tr : List Event} {s : Store} {lo : Nat}
    (h : StampsLe lo s) (hc : clockOk lo tr = true) :
    ∃ lo', StampsLe lo' (runTrace tr s) := by
  induction tr generalizing lo s with
  | nil => exact ⟨lo, h⟩
  | cons e rest ih =>
      simp only [clockOk, Bool.and_eq_true, decide_eq_true_eq] at hc
      obtain ⟨⟨⟨hA, hB⟩, hC⟩, hrest⟩ := hc
      exact ih (stamps_step h hA hB hC) hrest

/-- C8: in every state reachable from process start under a monotone clock,
each stored record satisfies `created_at ≤ updated_at`; a record's
`created_at` never changes once stored, across any further sequence of
calls; and the record returned by a successful create has
`created_at = updated_at`. -/
theorem created_le_updated_invariant
    (tr tr1 tr2 : List Event) (lo : Nat) (p : RecipeCreate)
    (t1 t2 t3 : Nat) (s : Store) (r : Recipe)
    (hc : clockOk lo tr = true) :
    (∀ kr ∈ (runTrace tr initStore).db, kr.2.created_at ≤ kr.2.updated_at)
      ∧ (∀ k ex ex', dictGet k (runTrace tr1 initStore).db = some ex →
          dictGet k (runTrace (tr1 ++ tr2) initStore).db = some ex' →
          ex'.created_at = ex.created_at)
      ∧ ((create_recipe p t1 t2 t3 s).1 = .ok r → r.created_at = r.updated_at) := by
  refine ⟨?_, ?_, ?_⟩
  · obtain ⟨lo', hst⟩ := stamps_run (stamps_init lo) hc
    exact fun kr hm => (hst kr hm).1
  · intro k ex ex' hget hget'
    rw [runTrace_append] at hget'
    exact created_preserved_run (wfs_run tr1 wfs_init) hget hget'
  · intro hok
    by_cases hv : validateRecipeCreate p = true
    · simp only [create_recipe, hv, if_true, next_id,
        buildRecipe_toData _ t3 t3 hv] at hok
      rw [← Option.some.inj (congrArg some (Except.ok.inj hok))]
      rfl
    · rw [Bool.not_eq_true] at hv
      simp [create_recipe, hv] at hok

theorem created_le_updated_invariant_witness :
    clockOk 0 [⟨Op.listOp, 1, 2, 2⟩] = true
      ∧ (∀ kr ∈ (runTrace [⟨Op.listOp, 1, 2, 2⟩] initStore).db,
          kr.2.created_at ≤ kr.2.updated_at) :=
  ⟨by decide,
   (created_le_updated_invariant [⟨Op.listOp, 1, 2, 2⟩] [] [] 0
      { title := "Pasta" } 0 0 0 initStore (sampleRecipe 1 0 0) (by decide)).1⟩

/-- Results and final state of `n` successive `_next_id()` calls. -/
def nextIds : Nat → Store → List Nat × Store
  | 0, s => ([], s)
  | n + 1, s =>
      let (i, s') := next_id s
      let (rest, s'') := nextIds n s'
      (i :: rest, s'')

theorem nextIds_spec (n : Nat) (s : Store) :
    (nextIds n s).1 = List.range' (s.id_counter + 1) n
      ∧ (nextIds n s).2.id_counter = s.id_counter + n := by
  induction n generalizing s with
  | zero => exact ⟨rfl, rfl⟩
  | succ n ih =>
      obtain ⟨h1, h2⟩ := ih { s with id_counter := s.id_counter + 1 }
      constructor
      · have hdef : (nextIds (n + 1) s).1
            = (s.id_counter + 1) :: (nextIds n { s with id_counter := s.id_counter + 1 }).1 := rfl
        rw [hdef, h1, List.range'_succ]
      · have hdef : (nextIds (n + 1) s).2
            = (nextIds n { s with id_counter := s.id_counter + 1 }).2 := rfl
        rw [hdef, h2]
        show s.id_counter + 1 + n = s.id_counter + (n + 1)
        omega

/-- C4: `_next_id` yields the strictly increasing sequence
`counter+1, counter+2, …` (so `1, 2, 3, …` from process start), bumping the
counter exactly once per call, with pairwise-distinct results; consequently
the keys of every reachable store are unique, and an id that has
disappeared from the store never comes back in any later state. -/
theorem next_id_strictly_increasing
    (n : Nat) (s : Store) (tr tr1 tr2 tr3 : List Event) (k : Nat) :
    (nextIds n s).1 = List.range' (s.id_counter + 1) n
      ∧ (nextIds n s).2.id_counter = s.id_counter + n
      ∧ (nextIds n initStore).1 = List.range' 1 n
      ∧ List.Pairwise (· < ·) (nextIds n s).1
      ∧ ((runTrace tr initStore).db.map Prod.fst).Nodup
      ∧ (k ∈ (runTrace tr1 initStore).db.map Prod.fst →
          k ∉ (runTrace (tr1 ++ tr2) initStore).db.map Prod.fst →
          k ∉ (runTrace (tr1 ++ tr2 ++ tr3) initStore).db.map Prod.fst) := by
  refine ⟨(nextIds_spec n s).1, (nextIds_spec n s).2, (nextIds_spec n initStore).1,
    ?_, (wfs_run tr wfs_init).2, ?_⟩
  · rw [(nextIds_spec n s).1]
    exact List.pairwise_lt_range' _ n
  · intro hmem hdead
    have hk : k ≤ (runTrace tr1 initStore).id_counter := by
      rw [List.mem_map] at hmem
      obtain ⟨kr, hm, hf⟩ := hmem
      have := ((wfs_run tr1 wfs_init).1 kr hm).2
      omega
    have hk2 : k ≤ (runTrace (tr1 ++ tr2) initStore).id_counter := by
      rw [runTrace_append]
      exact hk.trans (counter_run_ge tr2 _)
    rw [runTrace_append]
    exact dead_key_run tr3 hk2 hdead

theorem next_id_strictly_increasing_witness :
    (nextIds 3 initStore).1 = List.range' 1 3
      ∧ (nextIds 3 initStore).2.id_counter = 3
      ∧ List.range' 1 3 = [1, 2, 3] :=
  ⟨(next_id_strictly_increasing 3 initStore [] [] [] [] 0).2.2.1,
   (next_id_strictly_increasing 3 initStore [] [] [] [] 0).2.1,
   by decide⟩

/-- C6: the seeding step runs in front of every handler and fires exactly
when the store is empty — including empty-after-total-deletion — inserting
the hard-coded sample recipe under the incremented counter value; that id is
fresh (strictly above every id ever present in any earlier reachable state,
since keys are bounded by the monotone counter); and when the store is
non-empty the seeding step is the identity, so no operation reseeds. -/
theorem seeding_on_empty_store
    (s : Store) (t1 t2 : Nat) (tr tr' : List Event) (k : Nat) :
    (s.db = [] → ensure_seed t1 t2 s =
        { db := [(s.id_counter + 1, sampleRecipe (s.id_counter + 1) t1 t2)]
          id_counter := s.id_counter + 1 })
      ∧ (s.db ≠ [] → ensure_seed t1 t2 s = s)
      ∧ (k ∈ (runTrace tr initStore).db.map Prod.fst →
          k ≤ (runTrace tr initStore).id_counter)
      ∧ (runTrace tr initStore).id_counter ≤ (runTrace (tr ++ tr') initStore).id_counter := by
  refine ⟨fun h => ensure_seed_of_empty h, fun h => ensure_seed_of_ne_nil h, ?_, ?_⟩
  · intro hmem
    rw [List.mem_map] at hmem
    obtain ⟨kr, hm, hf⟩ := hmem
    have := ((wfs_run tr wfs_init).1 kr hm).2
    omega
  · rw [runTrace_append]
    exact counter_run_ge tr' _

theorem seeding_on_empty_store_witness :
    ensure_seed 5 6 initStore =
        { db := [(1, sampleRecipe 1 5 6)], id_counter := 1 }
      ∧ ensure_seed 5 6 { db := [(1, sampleRecipe 1 5 6)], id_counter := 1 }
          = { db := [(1, sampleRecipe 1 5 6)], id_counter := 1 } :=
  ⟨(seeding_on_empty_store initStore 5 6 [] [] 0).1 rfl,
   (seeding_on_empty_store { db := [(1, sampleRecipe 1 5 6)], id_counter := 1 }
      5 6 [] [] 0).2.1 (by simp)⟩
